import Mathlib

/-!
# CartoTUI — verification of the imagery-pipeline specification

Shallow embedding of the core of the CartoTUI terminal map viewer
(`ascii_map` package) and proofs about it.  Each embedded definition is
translated from the corresponding Python source:

* `ascii_map/cache.py`      — `TileCache.get_tile_exact`,
  `TileCache.get_tile_with_overzoom`, `TileCache.prune`
* `ascii_map/composite.py`  — `composite_from_tiles` (crop geometry)
* `ascii_map/geodesy.py`    — `latlon_to_tile_xy`, `tile_xy_to_latlon`
* `ascii_map/rendering/*.py`— the three glyph renderer backends
* `ascii_map/ui/map_control.py` — the render worker, the latest-wins
  request queue and `_normalize_lines`

Machine integers are modelled as `Nat`/`Int` (Python ints are unbounded),
Python floats as `ℚ` where the code is arithmetic on exact decimals and as
`ℝ` for the transcendental geodesy functions.  Pillow images are modelled
as a structure carrying pixel dimensions and a total pixel function; the
external Pillow `resize` is a parameter constrained by its documented
contract (output has exactly the requested dimensions).
-/

namespace CartoTUI

/-- An RGB pixel value (one byte per channel in the code). -/
structure RGBv where
  r : Nat
  g : Nat
  b : Nat
deriving DecidableEq, Repr

/-- A Pillow RGB image: pixel dimensions plus a total pixel lookup
(`pix y x`, row-major like a numpy array `arr[y, x]`). -/
structure Img where
  width : Nat
  height : Nat
  pix : Nat → Nat → RGBv

/-- The external Pillow resize operation, taken as a parameter of the
embedding.  Its contract (`Resizer.dims`) is Pillow's documented behaviour:
the result has exactly the requested pixel dimensions. -/
def ResizeFun : Type := Img → Nat → Nat → Img

/-- Pillow contract: `img.resize((w, h))` returns an image of exactly
`w × h` pixels. -/
def ResizeDims (rz : ResizeFun) : Prop :=
  ∀ i w h, (rz i w h).width = w ∧ (rz i w h).height = h

/-- Pillow contract used for the constant-image scenario: resampling a
single-colour image yields that same colour everywhere. -/
def ResizeConst (rz : ResizeFun) : Prop :=
  ∀ i w h c, (∀ u v, i.pix u v = c) → ∀ u v, (rz i w h).pix u v = c

/-- A concrete resizer satisfying both contracts (used by witnesses):
keeps the pixel function and sets the requested dimensions. -/
def sampleResize : ResizeFun := fun i w h => ⟨w, h, i.pix⟩

/-! ## Tile cache (`ascii_map/cache.py`)

`TileCache.get_tile_exact` touches the disk and the network; those
external effects are modelled by an environment (`CacheEnv`) describing
what is on disk and what the network would return, and the function
additionally returns the list of I/O effects it performed, so that
"no network request and no disk I/O" is a statement about the result. -/

/-- What a stored tile file decodes to: a good image, or bytes that make
`Image.open(...).convert("RGB")` raise (corrupt file). -/
inductive DiskFile where
  | good (img : Img)
  | corrupt

/-- External world for the cache: the on-disk store and the network.
`net z x y = none` models any fetch failure (non-200, empty body,
exception after retries); `some img` models a 200 response whose body
decodes to `img`. -/
structure CacheEnv where
  disk : Nat → Int → Int → Option DiskFile
  net : Nat → Int → Int → Option Img

/-- One I/O effect performed by the cache. -/
inductive CacheEff where
  | diskStat (z : Nat) (x y : Int)
  | diskRead (z : Nat) (x y : Int)
  | diskDelete (z : Nat) (x y : Int)
  | diskWrite (z : Nat) (x y : Int)
  | netGet (z : Nat) (x y : Int)
deriving DecidableEq, Repr

/-- `TileCache.get_tile_exact(z, x, y)` (cache.py lines 90–120).

```python
n = 2 ** z
if not (0 <= x < n and 0 <= y < n):
    return None
p = self._tile_path(z, x, y)
if p.exists():
    try:
        with self._lock:
            return Image.open(p).convert("RGB")
    except Exception:
        try: p.unlink()
        except Exception: pass
url = self.url_template.format(z=z, x=x, y=y)
try:
    r = self.session.get(url, timeout=...)
    if r.status_code == 200 and r.content:
        img = Image.open(io.BytesIO(r.content)).convert("RGB")
        with self._lock: img.save(p, "PNG")
        return img
except Exception: pass
return None
```

Returns the result together with the I/O effects performed, in order. -/
def get_tile_exact (e : CacheEnv) (z : Nat) (x y : Int) :
    Option Img × List CacheEff :=
  let n : Int := 2 ^ z
  if 0 ≤ x ∧ x < n ∧ 0 ≤ y ∧ y < n then
    let netPart : List CacheEff → Option Img × List CacheEff := fun pre =>
      match e.net z x y with
      | some img => (some img, pre ++ [CacheEff.netGet z x y, CacheEff.diskWrite z x y])
      | none => (none, pre ++ [CacheEff.netGet z x y])
    match e.disk z x y with
    | some (DiskFile.good img) =>
        (some img, [CacheEff.diskStat z x y, CacheEff.diskRead z x y])
    | some DiskFile.corrupt =>
        netPart [CacheEff.diskStat z x y, CacheEff.diskRead z x y,
                 CacheEff.diskDelete z x y]
    | none => netPart [CacheEff.diskStat z x y]
  else
    (none, [])

/-- Loop body of `TileCache.get_tile_with_overzoom` (cache.py lines
135–156), iterating `step = step, step+1, …` while `step ≤ levels`
(`remaining` counts the steps still allowed, so the first call passes
`remaining = levels`).

```python
for step in range(1, overzoom_levels + 1):
    parent_z = z - step
    if parent_z < 0: break
    factor = 2 ** step
    px = x // factor; py = y // factor
    parent = self.get_tile_exact(parent_z, px, py)
    if parent is None: continue
    sub_w = parent.width // factor; sub_h = parent.height // factor
    ox = (x % factor) * sub_w; oy = (y % factor) * sub_h
    try:
        sub = parent.crop((ox, oy, ox + sub_w, oy + sub_h))
        sub = sub.resize((parent.width, parent.height), Image.LANCZOS)
        return sub
    except Exception:
        continue
return None
```

`crop` is total in Pillow; the `except` branch fires exactly when the
cropped sub-region is empty (zero width or height), which is what makes
the Lanczos resample raise.  The crop of the model image keeps the parent
pixels shifted by the crop origin, and the resample is the `rz`
parameter. -/
def overzoomSteps (rz : ResizeFun) (e : CacheEnv) (z : Nat) (x y : Int) :
    Nat → Nat → Option Img
  | _, 0 => none
  | step, remaining + 1 =>
    if z < step then
      none
    else
      let factor : Int := 2 ^ step
      let px := Int.fdiv x factor
      let py := Int.fdiv y factor
      match (get_tile_exact e (z - step) px py).1 with
      | none => overzoomSteps rz e z x y (step + 1) remaining
      | some parent =>
          let sub_w := parent.width / 2 ^ step
          let sub_h := parent.height / 2 ^ step
          let ox := (Int.fmod x factor).toNat * sub_w
          let oy := (Int.fmod y factor).toNat * sub_h
          if sub_w = 0 ∨ sub_h = 0 then
            overzoomSteps rz e z x y (step + 1) remaining
          else
            let sub : Img := ⟨sub_w, sub_h, fun v u => parent.pix (oy + v) (ox + u)⟩
            some (rz sub parent.width parent.height)

/-- `TileCache.get_tile_with_overzoom(z, x, y, overzoom_levels)`
(cache.py lines 126–156): exact lookup first, then the ancestor walk. -/
def get_tile_with_overzoom (rz : ResizeFun) (e : CacheEnv) (z : Nat)
    (x y : Int) (overzoom_levels : Nat) : Option Img :=
  match (get_tile_exact e z x y).1 with
  | some img => some img
  | none => overzoomSteps rz e z x y 1 overzoom_levels

/-- Environment with nothing on disk and a dead network. -/
def emptyEnv : CacheEnv := ⟨fun _ _ _ => none, fun _ _ _ => none⟩

/-- A 256×256 all-white tile image. -/
def whiteTile : Img := ⟨256, 256, fun _ _ => ⟨255, 255, 255⟩⟩

/-- Environment whose disk holds exactly one good tile at `(0, 0, 0)`
(the root tile), with a dead network. -/
def rootOnlyEnv : CacheEnv :=
  ⟨fun z x y => if z = 0 ∧ x = 0 ∧ y = 0 then some (DiskFile.good whiteTile) else none,
   fun _ _ _ => none⟩

/-! ## Cache pruning (`TileCache.prune`, cache.py lines 162–189)

The walk over the cache directory is modelled as the list of persisted
`.png` files, each with its modification time and byte size.  The claim
assumes no per-file I/O errors, so the best-effort `try/except` wrappers
never fire in the modelled runs. -/

/-- One persisted raster file: modification time and size in bytes. -/
structure CacheFile where
  mtime : Nat
  size : Nat
deriving DecidableEq, Repr

/-- Total size of a set of cache files (`total` in the code). -/
def sumSizes (files : List CacheFile) : Nat :=
  (files.map CacheFile.size).sum

/-- `files.sort(key=lambda p: p.stat().st_mtime)` — Python's stable sort
by modification time. -/
def sortByMtime (files : List CacheFile) : List CacheFile :=
  files.mergeSort fun a b => decide (a.mtime ≤ b.mtime)

/-- The deletion loop of `prune`:

```python
for f in files:              # files sorted oldest-modified-first
    if total <= target: break
    s = f.stat().st_size
    f.unlink()
    total -= s
```

Takes the sorted list together with the running `total` and returns the
files that remain on disk. -/
def pruneLoop : List CacheFile → Nat → Nat → List CacheFile
  | [], _, _ => []
  | f :: rest, total, target =>
    if total ≤ target then f :: rest
    else pruneLoop rest (total - f.size) target

/-- `TileCache.prune(max_bytes, watermark)`: returns the files remaining
on disk after the call (in oldest-first order when deletion happened).

```python
total = sum of sizes
if total <= max_bytes: return
files.sort(key=mtime)
target = int(max_bytes * watermark)
...deletion loop...
```

`int()` on the non-negative float `max_bytes * watermark` is the floor,
modelled on exact rationals. -/
def prune (files : List CacheFile) (max_bytes : Nat) (watermark : ℚ) :
    List CacheFile :=
  let total := sumSizes files
  if total ≤ max_bytes then files
  else pruneLoop (sortByMtime files) total (Int.toNat ⌊(max_bytes : ℚ) * watermark⌋)

/-- Concrete cache contents used by the prune witness:
total size 15 bytes. -/
def demoFiles : List CacheFile := [⟨5, 4⟩, ⟨1, 3⟩, ⟨3, 8⟩]

/-! ## Pipeline coordinator (`ascii_map/ui/map_control.py`)

The inbound hand-off is `self._req_q = queue.Queue(maxsize=2)`; its
content is modelled as the list of queued jobs (front = next dequeued).
The job type is abstract (`α`); in the code it is the tuple
`(w, h, lat, lon, z)`. -/

/-- `MapControl._enqueue` (map_control.py lines 123–131): under the
queue mutex clear any pending jobs, then `put_nowait` the new one
(which cannot hit `queue.Full`: after the clear the queue holds 0 < 2
items).

```python
with self._req_q.mutex:
    self._req_q.queue.clear()
try:
    self._req_q.put_nowait((w, h, lat, lon, z))
except queue.Full:
    pass
``` -/
def enqueueJob {α : Type} (q : List α) (job : α) : List α :=
  let cleared : List α := []
  if cleared.length < 2 then cleared ++ [job] else cleared

/-- Worker-side view of the pipeline: the pending queue plus the ordered
list of jobs the render worker has processed so far. -/
structure WorkerState (α : Type) where
  pending : List α
  processed : List α

/-- The interactive loop submits a job (`_enqueue`). -/
def submitJob {α : Type} (s : WorkerState α) (job : α) : WorkerState α :=
  { s with pending := enqueueJob s.pending job }

/-- One pass of the `_render_worker` loop (map_control.py lines 133–143):
dequeue the front job and process it; with an empty queue the `get`
times out and the pass is a no-op. -/
def workerStep {α : Type} (s : WorkerState α) : WorkerState α :=
  match s.pending with
  | [] => s
  | j :: rest => ⟨rest, s.processed ++ [j]⟩

/-- `n` passes of the worker loop with no interleaved submissions. -/
def workerRun {α : Type} (s : WorkerState α) : Nat → WorkerState α
  | 0 => s
  | n + 1 => workerRun (workerStep s) n

/-- Normal-path composite canvas width (map_control.py line 147):
`px_w = min(max_px, max(64, int(w * 8)))`. -/
def compositePxW (max_px w : Nat) : Nat := min max_px (max 64 (w * 8))

/-- Normal-path composite canvas height (map_control.py line 148):
`px_h = min(max_px, max(64, int(h * 16)))`. -/
def compositePxH (max_px h : Nat) : Nat := min max_px (max 64 (h * 16))

/-- A solid-black RGB image of the given size. -/
def blackImg (w h : Nat) : Img := ⟨w, h, fun _ _ => ⟨0, 0, 0⟩⟩

/-- The image the worker hands to the renderer (map_control.py lines
145–165): the composite result, or — when compositing raised any
exception — the fallback
`Image.new("RGB", (max(64, int(w * 8)), max(64, int(h * 16))), (0, 0, 0))`.
Note the fallback applies only the lower 64-px clamp, not the
`min(max_px, ·)` clamp of the normal path. -/
def workerImage (res : Except Unit Img) (w h : Nat) : Img :=
  match res with
  | .ok img => img
  | .error _ => blackImg (max 64 (w * 8)) (max 64 (h * 16))

/-- A pipeline `Frame` (map_control.py lines 25–29): cell dimensions plus
rows of `(style, text)` runs.  Texts are modelled as `List Char`. -/
structure Frame where
  width : Nat
  height : Nat
  lines : List (List (String × List Char))

/-- Rest of the worker's per-job body (map_control.py lines 167–176):
render the (composite or fallback) image and wrap it as a `Frame` tagged
with the job's cell dimensions.  The renderer is passed as a function
`img ↦ w ↦ h ↦ rows`. -/
def workerFrame (render : Img → Nat → Nat → List (List (String × List Char)))
    (res : Except Unit Img) (w h : Nat) : Frame :=
  ⟨w, h, render (workerImage res w h) w h⟩

/-- A renderer stub used only by closed witness statements. -/
def nullRender : Img → Nat → Nat → List (List (String × List Char)) :=
  fun _ _ _ => []

/-- `MapControl._normalize_lines(frame, width, height)` (map_control.py
lines 208–222):

```python
for y in range(height):
    if y < len(source) and source[y]:
        row_text = "".join(text for (_style, text) in source[y])
        if len(row_text) < width: row_text = row_text.ljust(width)
        else:                     row_text = row_text[:width]
        lines_frag.append([("", row_text)])
    else:
        lines_frag.append([("", " " * width)])
``` -/
def normalize_lines (frame : Frame) (width height : Nat) :
    List (List (String × List Char)) :=
  (List.range height).map fun y =>
    let source := frame.lines
    if y < source.length ∧ ¬ (source.getD y []).isEmpty then
      let row_text := ((source.getD y []).map Prod.snd).flatten
      let padded := if row_text.length < width
        then row_text ++ List.replicate (width - row_text.length) ' '
        else row_text.take width
      [("", padded)]
    else
      [("", List.replicate width ' ')]

/-! ## Glyph renderers (`ascii_map/rendering/`)

Pixel values are bytes, luminance is computed on exact rationals (the
decimal coefficients `0.299 / 0.587 / 0.114` and the divisions below are
exact at every value these claims evaluate, as is the IEEE arithmetic of
the code at those values).  numpy's `.round()` is round-half-to-even;
`.astype(int)` truncates toward zero. -/

/-- Rec. 601 luminance normalized to `[0, 1]`:
`(0.299 R + 0.587 G + 0.114 B) / 255`. -/
def lumQ (c : RGBv) : ℚ :=
  (((299 : ℚ) * c.r + 587 * c.g + 114 * c.b) / 1000) / 255

/-- numpy `.round()`: round half to even. -/
def npRound (q : ℚ) : Int :=
  let f := ⌊q⌋
  if 1 / 2 < q - f then f + 1
  else if q - f < 1 / 2 then f
  else if f % 2 = 0 then f else f + 1

/-- numpy `.astype(int)` / Python `int()`: truncation toward zero. -/
def truncToInt (q : ℚ) : Int := Int.tdiv q.num (q.den : Int)

/-- `np.clip(v, 0, size - 1)` followed by use as a list index. -/
def clipIdx (v : Int) (size : Nat) : Nat :=
  (min (max v 0) ((size : Int) - 1)).toNat

/-- Lower-case hex digit. -/
def hexDigit (n : Nat) : Char :=
  if n < 10 then Char.ofNat (48 + n) else Char.ofNat (87 + n)

/-- Two-digit lower-case hex of a byte (`f"{v:02x}"`). -/
def hex2 (n : Nat) : List Char := [hexDigit (n / 16 % 16), hexDigit (n % 16)]

/-- `_rgb_to_style`: the prompt_toolkit style string `"fg:#RRGGBB"`. -/
def rgbToStyle (c : RGBv) : String :=
  ⟨'f' :: 'g' :: ':' :: '#' :: (hex2 c.r ++ hex2 c.g ++ hex2 c.b)⟩

/-- Run-length merge loop of `AsciiBackend.render` (renderer.py lines
124–141), where `run_style` starts as `None`:

```python
run_style = None; run_text = []
for x in ...:
    ch = ...; style = ...
    if style != run_style and run_text:
        line.append((run_style, "".join(run_text))); run_text = []
    run_style = style; run_text.append(ch)
if run_text: line.append((run_style, "".join(run_text)))
``` -/
def mergeCellsO : List (String × Char) → Option String → List Char →
    List (String × List Char)
  | [], cur, buf => if buf.isEmpty then [] else [(cur.getD "", buf)]
  | (st, ch) :: rest, cur, buf =>
    if some st ≠ cur ∧ ¬ buf.isEmpty then
      (cur.getD "", buf) :: mergeCellsO rest (some st) [ch]
    else
      mergeCellsO rest (some st) (buf ++ [ch])

/-- Run-length merge loop of the quadrant / braille / ascii_mode
renderers, where `last_style` starts as `""`.  A cell carrying `none`
leaves `last_style` unchanged (`style = last_style`, the braille
short-block branch, and the quadrant/ascii monochrome paths, which never
touch the style at all). -/
def mergeCellsS : List (Option String × Char) → String → List Char →
    List (String × List Char)
  | [], cur, buf => if buf.isEmpty then [] else [(cur, buf)]
  | (stOpt, ch) :: rest, cur, buf =>
    let st := stOpt.getD cur
    if st ≠ cur ∧ ¬ buf.isEmpty then
      (cur, buf) :: mergeCellsS rest st [ch]
    else
      mergeCellsS rest st (buf ++ [ch])

/-- `AsciiBackend._resize_for_grid` / `AsciiRenderer._resize`: skip the
resample when the image already has the target dimensions. -/
def resizeForGrid (rz : ResizeFun) (img : Img) (w h : Nat) : Img :=
  if img.width = w ∧ img.height = h then img else rz img w h

/-- `glyphs = np.array(list(palette)); if glyphs.size == 0: glyphs = " ."`. -/
def asciiGlyphs (palette : List Char) : List Char :=
  if palette.isEmpty then [' ', '.'] else palette

/-- Per-pixel glyph of `AsciiBackend`:
`glyphs[np.clip((lum * (size-1)).round().astype(int32), 0, size-1)]`. -/
def asciiGlyphAt (glyphs : List Char) (c : RGBv) : Char :=
  glyphs.getD
    (clipIdx (npRound (lumQ c * ((glyphs.length - 1 : Nat) : ℚ))) glyphs.length) ' '

/-- `AsciiBackend.render` (renderer.py lines 90–147). -/
def asciiBackendRender (rz : ResizeFun) (img : Img) (term_w term_h : Nat)
    (use_color : Bool) (palette : List Char) : List (List (String × List Char)) :=
  if term_w < 1 ∨ term_h < 1 then [[("", [])]]
  else
    let small := resizeForGrid rz img term_w term_h
    let glyphs := asciiGlyphs palette
    if use_color then
      (List.range small.height).map fun y =>
        let line := mergeCellsO ((List.range small.width).map fun x =>
          (rgbToStyle (small.pix y x), asciiGlyphAt glyphs (small.pix y x))) none []
        if line.isEmpty then [("", [])] else line
    else
      (List.range small.height).map fun y =>
        [("", (List.range small.width).map fun x => asciiGlyphAt glyphs (small.pix y x))]

/-- Per-pixel glyph of `AsciiRenderer` (ascii_mode.py):
`glyphs[np.clip((lum * (len-1)).astype(int), 0, len-1)]` — truncation,
not rounding. -/
def asciiModeGlyphAt (glyphs : List Char) (c : RGBv) : Char :=
  glyphs.getD
    (clipIdx (truncToInt (lumQ c * ((glyphs.length - 1 : Nat) : ℚ))) glyphs.length) ' '

/-- `AsciiRenderer.render` (ascii_mode.py lines 29–70). -/
def asciiModeRender (rz : ResizeFun) (img : Img) (w h : Nat)
    (use_color : Bool) (palette : List Char) : List (List (String × List Char)) :=
  if w ≤ 0 ∨ h ≤ 0 then [[("", [])]]
  else
    let rimg := resizeForGrid rz img w h
    let glyphs := asciiGlyphs palette
    if use_color then
      (List.range h).map fun y =>
        mergeCellsS ((List.range w).map fun x =>
          (some (rgbToStyle (rimg.pix y x)), asciiModeGlyphAt glyphs (rimg.pix y x))) "" []
    else
      (List.range h).map fun y =>
        [("", (List.range w).map fun x => asciiModeGlyphAt glyphs (rimg.pix y x))]

/-- `_QUAD_GLYPHS.get(bits, " ")`: the 16 block glyphs keyed by the
TL/TR/BL/BR bit pattern. -/
def quadGlyph (bits : Nat) : Char :=
  match bits with
  | 0 => ' '
  | 1 => '▗'
  | 2 => '▖'
  | 3 => '▄'
  | 4 => '▝'
  | 5 => '▐'
  | 6 => '▞'
  | 7 => '▟'
  | 8 => '▘'
  | 9 => '▚'
  | 10 => '▌'
  | 11 => '▙'
  | 12 => '▀'
  | 13 => '▜'
  | 14 => '▛'
  | 15 => '█'
  | _ => ' '

/-- Quadrant threshold bits (quadrant_mode.py lines 77–82):
`< 0.5` luminance sets TL=8 / TR=4 / BL=2 / BR=1. -/
def quadBits (g00 g01 g10 g11 : ℚ) : Nat :=
  (if g00 < 1 / 2 then 8 else 0) + (if g01 < 1 / 2 then 4 else 0) +
    (if g10 < 1 / 2 then 2 else 0) + (if g11 < 1 / 2 then 1 else 0)

/-- `.mean(...).astype(int)` of four byte values (exact: the sum is a
multiple division by 4 in IEEE is exact). -/
def mean4 (a b c d : Nat) : Nat :=
  (truncToInt (((a + b + c + d : Nat) : ℚ) / 4)).toNat

/-- Mean colour of a 2×2 pixel block. -/
def meanRGB2x2 (i : Img) (cy cx : Nat) : RGBv :=
  ⟨mean4 (i.pix cy cx).r (i.pix cy (cx + 1)).r (i.pix (cy + 1) cx).r (i.pix (cy + 1) (cx + 1)).r,
   mean4 (i.pix cy cx).g (i.pix cy (cx + 1)).g (i.pix (cy + 1) cx).g (i.pix (cy + 1) (cx + 1)).g,
   mean4 (i.pix cy cx).b (i.pix cy (cx + 1)).b (i.pix (cy + 1) cx).b (i.pix (cy + 1) (cx + 1)).b⟩

/-- `QuadrantRenderer.render` (quadrant_mode.py lines 47–97).  The loops
run over the *requested* grid (`range(0, term_h*2, 2)` etc.); a block
whose numpy slice is short (`sub.size < 4`, only possible if the resample
returned fewer pixels than requested) renders as a space. -/
def quadrantRender (rz : ResizeFun) (img : Img) (term_w term_h : Nat)
    (use_color : Bool) : List (List (String × List Char)) :=
  if term_w ≤ 0 ∨ term_h ≤ 0 then [[("", [])]]
  else
    let rimg := rz img (term_w * 2) (term_h * 2)
    (List.range term_h).map fun cyI =>
      let cy := cyI * 2
      mergeCellsS ((List.range term_w).map fun cxI =>
        let cx := cxI * 2
        let ch : Char :=
          if rimg.height < cy + 2 ∨ rimg.width < cx + 2 then ' '
          else quadGlyph (quadBits (lumQ (rimg.pix cy cx)) (lumQ (rimg.pix cy (cx + 1)))
            (lumQ (rimg.pix (cy + 1) cx)) (lumQ (rimg.pix (cy + 1) (cx + 1))))
        if use_color then (some (rgbToStyle (meanRGB2x2 rimg cy cx)), ch)
        else (none, ch)) "" []

/-- `BrailleRenderer._to_braille_char` dot bits (braille_mode.py lines
24–49): row 0 → dots 1/4, row 1 → 2/5, row 2 → 3/6, row 3 → 7/8. -/
def brailleBits (g : Nat → Nat → ℚ) (cy cx : Nat) : Nat :=
  (if g cy cx < 1 / 2 then 1 else 0) + (if g cy (cx + 1) < 1 / 2 then 8 else 0) +
    (if g (cy + 1) cx < 1 / 2 then 2 else 0) + (if g (cy + 1) (cx + 1) < 1 / 2 then 16 else 0) +
    (if g (cy + 2) cx < 1 / 2 then 4 else 0) + (if g (cy + 2) (cx + 1) < 1 / 2 then 32 else 0) +
    (if g (cy + 3) cx < 1 / 2 then 64 else 0) + (if g (cy + 3) (cx + 1) < 1 / 2 then 128 else 0)

/-- `chr(0x2800 | bits)` — the bit pattern is below 0x100, so `|` is `+`. -/
def brailleChar (bits : Nat) : Char := Char.ofNat (0x2800 + bits)

/-- `.mean(...).astype(int)` of eight byte values. -/
def mean8 (a b c d e f g' h' : Nat) : Nat :=
  (truncToInt (((a + b + c + d + e + f + g' + h' : Nat) : ℚ) / 8)).toNat

/-- Mean colour of a 2×4 pixel block. -/
def meanRGB2x4 (i : Img) (cy cx : Nat) : RGBv :=
  ⟨mean8 (i.pix cy cx).r (i.pix cy (cx + 1)).r (i.pix (cy + 1) cx).r (i.pix (cy + 1) (cx + 1)).r
     (i.pix (cy + 2) cx).r (i.pix (cy + 2) (cx + 1)).r (i.pix (cy + 3) cx).r (i.pix (cy + 3) (cx + 1)).r,
   mean8 (i.pix cy cx).g (i.pix cy (cx + 1)).g (i.pix (cy + 1) cx).g (i.pix (cy + 1) (cx + 1)).g
     (i.pix (cy + 2) cx).g (i.pix (cy + 2) (cx + 1)).g (i.pix (cy + 3) cx).g (i.pix (cy + 3) (cx + 1)).g,
   mean8 (i.pix cy cx).b (i.pix cy (cx + 1)).b (i.pix (cy + 1) cx).b (i.pix (cy + 1) (cx + 1)).b
     (i.pix (cy + 2) cx).b (i.pix (cy + 2) (cx + 1)).b (i.pix (cy + 3) cx).b (i.pix (cy + 3) (cx + 1)).b⟩

/-- `BrailleRenderer.render` (braille_mode.py lines 51–95).  A block
whose numpy slice is not `(4, 2)` renders as a space and leaves
`last_style` unchanged (the `none` cell). -/
def brailleRender (rz : ResizeFun) (img : Img) (term_w term_h : Nat)
    (use_color : Bool) : List (List (String × List Char)) :=
  if term_w ≤ 0 ∨ term_h ≤ 0 then [[("", [])]]
  else
    let rimg := rz img (term_w * 2) (term_h * 4)
    (List.range term_h).map fun cyI =>
      let cy := cyI * 4
      let line := mergeCellsS ((List.range term_w).map fun cxI =>
        let cx := cxI * 2
        if rimg.height < cy + 4 ∨ rimg.width < cx + 2 then
          ((none : Option String), ' ')
        else
          let ch := brailleChar (brailleBits (fun v u => lumQ (rimg.pix v u)) cy cx)
          if use_color then (some (rgbToStyle (meanRGB2x4 rimg cy cx)), ch)
          else (some "", ch)) "" []
      if line.isEmpty then [("", [])] else line

/-- The `ascii_basic` palette `" .:-=+*#%@"` (renderer.py line 43). -/
def ascii_basic : List Char :=
  [' ', '.', ':', '-', '=', '+', '*', '#', '%', '@']

/-- Total character count of a row of `(style, text)` runs. -/
def runsLen (l : List (String × List Char)) : Nat :=
  (l.map fun r => r.2.length).sum

/-! ## Composite crop geometry (`ascii_map/composite.py` lines 47–85)

`composite_from_tiles` computes the fractional center tile coordinate
`xt, yt = latlon_to_tile_xy(lat, lon, z)` and then only does exact
arithmetic with it; the geometry below is parametric in that rational
coordinate.  `tile_size = 256`.   Tile index `start_x + dx` is pasted at
canvas x-offset `dx * 256` (`base.paste(img, (dx*tile_size, ...))`).
Only the x axis is shown; y is identical with `tiles_y` and
`height_px`. -/

/-- `math.ceil(width_px / tile_size)` on a non-negative int. -/
def ceilDiv256 (px : Nat) : Nat := (px + 255) / 256

/-- `tiles_x = math.ceil(width_px / tile_size) + 2` — the whole-tile span
plus a one-tile margin on each side. -/
def composite_tiles_x (width_px : Nat) : Nat := ceilDiv256 width_px + 2

/-- `tx = int(xt)`. -/
def composite_tx (xt : ℚ) : Int := truncToInt xt

/-- `start_x = tx - tiles_x // 2`: the tile index pasted at canvas
x-offset 0. -/
def composite_start_x (xt : ℚ) (width_px : Nat) : Int :=
  composite_tx xt - (composite_tiles_x width_px / 2 : Nat)

/-- `cx = (xt - tx + 0.5) * tile_size` — the x the code centers its crop
window on (composite.py line 79). -/
def composite_crop_cx (xt : ℚ) : ℚ :=
  (xt - composite_tx xt + 1 / 2) * 256

/-- `left = int(cx - width_px / 2)` — left edge of the box passed to
`base.crop` (composite.py line 81). -/
def composite_crop_left (xt : ℚ) (width_px : Nat) : Int :=
  truncToInt (composite_crop_cx xt - width_px / 2)

/-- Following the claim's words (not the code): the canvas x position of
the exact fractional center — tile `start_x + dx` is pasted at
`dx * 256`, so tile coordinate `xt` sits at `(xt - start_x) * 256`
pixels. -/
def claimedCenterCanvasX (xt : ℚ) (width_px : Nat) : ℚ :=
  (xt - composite_start_x xt width_px) * 256

/-- Following the claim's words (not the code): the left edge of a
`width_px`-wide crop window centered on the canvas position of the exact
fractional center. -/
def claimedCropLeft (xt : ℚ) (width_px : Nat) : Int :=
  truncToInt (claimedCenterCanvasX xt width_px - width_px / 2)

/-! ## Geodesy (`ascii_map/geodesy.py`)

The Web-Mercator projection uses `math.tan/log/cos/atan/sinh`; it is
modelled over the real numbers. -/

noncomputable section

/-- `MAX_LAT = 85.05112878` (geodesy.py line 19). -/
def MAX_LAT : ℝ := 85.05112878

/-- `clamp_lat(lat)`: clamp latitude to the Web-Mercator valid range. -/
def clamp_lat (lat : ℝ) : ℝ := max (min lat MAX_LAT) (-MAX_LAT)

/-- `latlon_to_tile_xy(lat, lon, zoom)` (geodesy.py lines 27–37):

```python
lat = clamp_lat(lat)
n = 2.0 ** zoom
x = (lon + 180.0) / 360.0 * n
lat_rad = math.radians(lat)
y = (1.0 - math.log(math.tan(lat_rad) + 1 / math.cos(lat_rad)) / math.pi) / 2.0 * n
return x, y
``` -/
def latlon_to_tile_xy (lat lon : ℝ) (zoom : ℕ) : ℝ × ℝ :=
  let lat' := clamp_lat lat
  let n : ℝ := 2 ^ zoom
  let x := (lon + 180) / 360 * n
  let lat_rad := lat' * Real.pi / 180
  let y := (1 - Real.log (Real.tan lat_rad + 1 / Real.cos lat_rad) / Real.pi) / 2 * n
  (x, y)

/-- `tile_xy_to_latlon(x, y, zoom)` (geodesy.py lines 40–49):

```python
n = 2.0 ** zoom
lon = x / n * 360.0 - 180.0
lat_rad = math.atan(math.sinh(math.pi * (1 - 2 * y / n)))
lat = math.degrees(lat_rad)
return lat, lon
``` -/
def tile_xy_to_latlon (x y : ℝ) (zoom : ℕ) : ℝ × ℝ :=
  let n : ℝ := 2 ^ zoom
  let lon := x / n * 360 - 180
  let lat_rad := Real.arctan (Real.sinh (Real.pi * (1 - 2 * y / n)))
  (lat_rad * 180 / Real.pi, lon)

end

end CartoTUI

namespace CartoTUI

theorem sampleResize_dims : ResizeDims sampleResize := by
  intro i w h; exact ⟨rfl, rfl⟩

theorem sampleResize_const : ResizeConst sampleResize := by
  intro i w h c hc u v; exact hc u v

/-- On non-negative rationals, Python truncation agrees with the floor. -/
theorem truncToInt_of_nonneg (q : ℚ) (h : 0 ≤ q) : truncToInt q = ⌊q⌋ := by
  rw [Rat.floor_def]
  exact Int.tdiv_eq_ediv (Rat.num_nonneg.mpr h) (by positivity)

/-- C2: out-of-range tile indices (`x < 0`, `x ≥ 2^z`, `y < 0` or
`y ≥ 2^z`) make `get_tile_exact` return the empty result immediately,
with no network request and no disk I/O at all. -/
theorem get_tile_exact_out_of_range (e : CacheEnv) (z : Nat) (x y : Int)
    (h : x < 0 ∨ (2 : Int) ^ z ≤ x ∨ y < 0 ∨ (2 : Int) ^ z ≤ y) :
    get_tile_exact e z x y = (none, []) := by
  unfold get_tile_exact
  rw [if_neg]
  intro hc
  obtain ⟨h1, h2, h3, h4⟩ := hc
  rcases h with h | h | h | h <;> omega

/-- C2 witness: the spec's scenario — zoom 20, index `(2^20, 0)` is
rejected with an empty result and an empty effect list (zero network
calls). -/
theorem get_tile_exact_out_of_range_witness :
    ((2 : Int) ^ (20 : Nat) ≤ 2 ^ 20) ∧
      get_tile_exact emptyEnv 20 (2 ^ 20) 0 = (none, []) :=
  ⟨le_refl _,
   get_tile_exact_out_of_range emptyEnv 20 (2 ^ 20) 0 (Or.inr (Or.inl (le_refl _)))⟩

/-- C5: on an exact miss with overzoom budget 1, if the ancestor tile at
`(z−1, x//2, y//2)` is available (a real image, at least 2 px each way)
then the result is a non-empty image whose pixel dimensions equal the
ancestor's dimensions (the native tile resolution); and if no ancestor is
found within the budget, the result is empty. -/
theorem get_tile_with_overzoom_ancestor :
    (∀ (rz : ResizeFun) (e : CacheEnv) (z : Nat) (x y : Int) (p : Img),
      ResizeDims rz →
      (get_tile_exact e z x y).1 = none →
      1 ≤ z →
      (get_tile_exact e (z - 1) (Int.fdiv x 2) (Int.fdiv y 2)).1 = some p →
      2 ≤ p.width → 2 ≤ p.height →
      ∃ img, get_tile_with_overzoom rz e z x y 1 = some img ∧
        img.width = p.width ∧ img.height = p.height) ∧
    (∀ (rz : ResizeFun) (e : CacheEnv) (z : Nat) (x y : Int),
      (get_tile_exact e z x y).1 = none →
      (z = 0 ∨ (get_tile_exact e (z - 1) (Int.fdiv x 2) (Int.fdiv y 2)).1 = none) →
      get_tile_with_overzoom rz e z x y 1 = none) := by
  constructor
  · intro rz e z x y p hdims hmiss hz hparent hw hh
    have h1 : get_tile_with_overzoom rz e z x y 1 = overzoomSteps rz e z x y 1 1 := by
      unfold get_tile_with_overzoom
      rw [hmiss]
    have h2 : overzoomSteps rz e z x y 1 (0 + 1) =
        some (rz ⟨p.width / 2, p.height / 2,
          fun v u => p.pix ((Int.fmod y 2).toNat * (p.height / 2) + v)
            ((Int.fmod x 2).toNat * (p.width / 2) + u)⟩ p.width p.height) := by
      rw [overzoomSteps]
      rw [if_neg (by omega)]
      simp only [pow_one]
      rw [hparent]
      simp only []
      rw [if_neg (by omega)]
    refine ⟨rz ⟨p.width / 2, p.height / 2,
        fun v u => p.pix ((Int.fmod y 2).toNat * (p.height / 2) + v)
          ((Int.fmod x 2).toNat * (p.width / 2) + u)⟩ p.width p.height,
      ?_, (hdims _ p.width p.height).1, (hdims _ p.width p.height).2⟩
    rw [h1]
    exact h2
  · intro rz e z x y hmiss hanc
    have h1 : get_tile_with_overzoom rz e z x y 1 = overzoomSteps rz e z x y 1 1 := by
      unfold get_tile_with_overzoom
      rw [hmiss]
    rw [h1]
    show overzoomSteps rz e z x y 1 (0 + 1) = none
    rw [overzoomSteps]
    rcases hanc with hz | hanc
    · rw [if_pos (by omega)]
    · by_cases hz : z < 1
      · rw [if_pos hz]
      · rw [if_neg hz]
        simp only [pow_one]
        rw [hanc]
        simp only []
        rw [overzoomSteps]

/-- C5 witness: with the disk holding only the root tile `(0,0,0)`, the
exact lookup at `(1,0,0)` misses and `get_tile_with_overzoom` at budget 1
synthesizes a 256×256 image; and with an entirely empty world the request
at `(0,5,7)` stays empty. -/
theorem get_tile_with_overzoom_ancestor_witness :
    ((get_tile_exact rootOnlyEnv 1 0 0).1 = none ∧
      (get_tile_exact rootOnlyEnv 0 (Int.fdiv 0 2) (Int.fdiv 0 2)).1 = some whiteTile ∧
      (∃ img, get_tile_with_overzoom sampleResize rootOnlyEnv 1 0 0 1 = some img ∧
        img.width = whiteTile.width ∧ img.height = whiteTile.height)) ∧
    ((get_tile_exact emptyEnv 0 5 7).1 = none ∧
      get_tile_with_overzoom sampleResize emptyEnv 0 5 7 1 = none) := by
  refine ⟨⟨?_, ?_, ?_⟩, ?_, ?_⟩
  · rfl
  · rfl
  · exact get_tile_with_overzoom_ancestor.1 sampleResize rootOnlyEnv 1 0 0 whiteTile
      sampleResize_dims rfl (le_refl 1) rfl (by decide) (by decide)
  · rfl
  · exact get_tile_with_overzoom_ancestor.2 sampleResize emptyEnv 0 5 7 rfl (Or.inl rfl)

theorem pruneLoop_spec (target : Nat) :
    ∀ (l : List CacheFile) (total : Nat), total = sumSizes l →
      ∃ k, pruneLoop l total target = l.drop k ∧
        sumSizes (l.drop k) ≤ target ∧
        ∀ j < k, target < sumSizes (l.drop j) := by
  intro l
  induction l with
  | nil =>
    intro total htot
    exact ⟨0, rfl, by simp [sumSizes], by omega⟩
  | cons f rest ih =>
    intro total htot
    have hsum : total = f.size + sumSizes rest := by
      simpa [sumSizes] using htot
    by_cases hle : total ≤ target
    · refine ⟨0, ?_, ?_, by omega⟩
      · simp [pruneLoop, hle]
      · simpa [← htot] using hle
    · obtain ⟨k, hk, hsk, hmin⟩ := ih (total - f.size) (by omega)
      refine ⟨k + 1, ?_, ?_, ?_⟩
      · simpa [pruneLoop, hle] using hk
      · simpa using hsk
      · intro j hj
        match j with
        | 0 => simpa [← htot] using Nat.lt_of_not_le hle
        | j' + 1 => exact (by simpa using hmin j' (by omega))

/-- C6: `prune(max_bytes, watermark)` is a no-op when the cached total is
at most `max_bytes`; otherwise it deletes files strictly oldest-mtime
first, exactly until the remaining total is at most
`max_bytes × watermark` — the survivors are a suffix of the mtime-sorted
file list (a permutation of the originals), every strictly shorter
deletion prefix leaves the total above `max_bytes × watermark`, and the
sorted order is genuinely mtime-ascending. -/
theorem prune_spec (files : List CacheFile) (max_bytes : Nat) (watermark : ℚ)
    (hwm : 0 ≤ watermark) :
    (sumSizes files ≤ max_bytes → prune files max_bytes watermark = files) ∧
    (max_bytes < sumSizes files →
      ∃ k, prune files max_bytes watermark = (sortByMtime files).drop k ∧
        (sumSizes (prune files max_bytes watermark) : ℚ) ≤ (max_bytes : ℚ) * watermark ∧
        (∀ j < k, (max_bytes : ℚ) * watermark <
          (sumSizes ((sortByMtime files).drop j) : ℚ)) ∧
        (sortByMtime files).Pairwise (fun a b => a.mtime ≤ b.mtime) ∧
        (sortByMtime files).Perm files) := by
  have hq : (0 : ℚ) ≤ (max_bytes : ℚ) * watermark :=
    mul_nonneg (by positivity) hwm
  have hperm : (sortByMtime files).Perm files :=
    List.mergeSort_perm files _
  have hsum : sumSizes (sortByMtime files) = sumSizes files :=
    List.Perm.sum_eq (hperm.map CacheFile.size)
  have htoNat : ((Int.toNat ⌊(max_bytes : ℚ) * watermark⌋ : Nat) : Int) =
      ⌊(max_bytes : ℚ) * watermark⌋ :=
    Int.toNat_of_nonneg (Int.floor_nonneg.mpr hq)
  constructor
  · intro h
    simp [prune, h]
  · intro h
    have hno : ¬ sumSizes files ≤ max_bytes := by omega
    obtain ⟨k, hk, hsk, hmin⟩ :=
      pruneLoop_spec (Int.toNat ⌊(max_bytes : ℚ) * watermark⌋)
        (sortByMtime files) (sumSizes files) hsum.symm
    have hpr : prune files max_bytes watermark = (sortByMtime files).drop k := by
      simpa [prune, hno] using hk
    refine ⟨k, hpr, ?_, ?_, ?_, hperm⟩
    · rw [hpr]
      have h1 : ((sumSizes ((sortByMtime files).drop k) : Int)) ≤
          ⌊(max_bytes : ℚ) * watermark⌋ := by
        omega
      exact_mod_cast Int.le_floor.mp h1
    · intro j hj
      have h2 : ⌊(max_bytes : ℚ) * watermark⌋ <
          ((sumSizes ((sortByMtime files).drop j) : Int)) := by
        have := hmin j hj
        omega
      exact_mod_cast Int.floor_lt.mp h2
    · have hs := @List.sorted_mergeSort CacheFile
        (fun a b => decide (a.mtime ≤ b.mtime))
        (fun a b c hab hbc => by
          simp only [decide_eq_true_eq] at *; omega)
        (fun a b => by
          simp only [Bool.or_eq_true, decide_eq_true_eq]; omega)
        files
      exact hs.imp fun h => by simpa using h

/-- C6 witness: cache `[size 4 @ mtime 5, size 3 @ mtime 1, size 8 @ mtime 3]`
(total 15), `max_bytes = 10`, `watermark = 17/20`: the two oldest files
are deleted, leaving the size-4 file (total 4 ≤ 8.5). -/
theorem prune_spec_witness :
    (0 : ℚ) ≤ 17 / 20 ∧ 10 < sumSizes demoFiles ∧
      (∃ k, prune demoFiles 10 (17 / 20) = (sortByMtime demoFiles).drop k ∧
        (sumSizes (prune demoFiles 10 (17 / 20)) : ℚ) ≤ (10 : ℚ) * (17 / 20) ∧
        (∀ j < k, (10 : ℚ) * (17 / 20) <
          (sumSizes ((sortByMtime demoFiles).drop j) : ℚ)) ∧
        (sortByMtime demoFiles).Pairwise (fun a b => a.mtime ≤ b.mtime) ∧
        (sortByMtime demoFiles).Perm demoFiles) :=
  ⟨by norm_num, by decide,
    (prune_spec demoFiles 10 (17 / 20) (by norm_num)).2 (by decide)⟩

theorem workerRun_no_pending {α : Type} (p : List α) (n : Nat) :
    workerRun (⟨[], p⟩ : WorkerState α) n = ⟨[], p⟩ := by
  induction n with
  | zero => rfl
  | succ n ih => simpa [workerRun, workerStep] using ih

/-- C1: latest-wins inbound hand-off — submitting job `A` and then job
`B` before the worker dequeues leaves exactly `[B]` pending, and however
many worker passes follow, `A` is never processed while `B` is processed
by the first pass. -/
theorem latest_wins {α : Type} (s : WorkerState α) (A B : α)
    (hAB : A ≠ B) (hA : A ∉ s.processed) (n : Nat) :
    (submitJob (submitJob s A) B).pending = [B] ∧
    A ∉ (workerRun (submitJob (submitJob s A) B) n).processed ∧
    (1 ≤ n →
      (workerRun (submitJob (submitJob s A) B) n).processed = s.processed ++ [B]) := by
  have hsub : submitJob (submitJob s A) B =
      (⟨[B], s.processed⟩ : WorkerState α) := rfl
  have hrun : ∀ m : Nat,
      workerRun (⟨[B], s.processed⟩ : WorkerState α) (m + 1) =
        ⟨[], s.processed ++ [B]⟩ := by
    intro m
    show workerRun (workerStep ⟨[B], s.processed⟩) m = _
    simpa [workerStep] using workerRun_no_pending (s.processed ++ [B]) m
  refine ⟨rfl, ?_, ?_⟩
  · rw [hsub]
    match n with
    | 0 => exact hA
    | m + 1 =>
      rw [hrun m]
      simp only [List.mem_append, List.mem_singleton]
      rintro (h | h)
      · exact hA h
      · exact hAB h
  · intro hn
    rw [hsub]
    match n, hn with
    | m + 1, _ => exact congrArg WorkerState.processed (hrun m)

/-- C1 witness: from an idle pipeline, submit job 0 then job 1 and let
the worker run three passes — only job 1 is ever processed. -/
theorem latest_wins_witness :
    (0 : Nat) ≠ 1 ∧ (0 : Nat) ∉ ([] : List Nat) ∧
      ((submitJob (submitJob (⟨[], []⟩ : WorkerState Nat) 0) 1).pending = [1] ∧
        (0 : Nat) ∉ (workerRun (submitJob (submitJob (⟨[], []⟩ : WorkerState Nat) 0) 1) 3).processed ∧
        (1 ≤ 3 →
          (workerRun (submitJob (submitJob (⟨[], []⟩ : WorkerState Nat) 0) 1) 3).processed =
            ([] : List Nat) ++ [1])) :=
  ⟨by decide, by simp,
    latest_wins (⟨[], []⟩ : WorkerState Nat) 0 1 (by decide) (by simp) 3⟩

/-- C4 counterexample: at cell width 200 with `max_composite_px = 1200`
the normal path would composite at width `min(1200, max(64, 1600)) = 1200`,
but the exception fallback creates the black image at width
`max(64, 1600) = 1600` — the claim's "subject to the same clamps as the
normal path" fails. -/
theorem worker_fallback_counterexample :
    (workerImage (Except.error ()) 200 1).width = 1600 ∧
    compositePxW 1200 200 = 1200 ∧
    (workerImage (Except.error ()) 200 1).width ≠ compositePxW 1200 200 := by
  refine ⟨rfl, rfl, ?_⟩
  decide

/-- C4 (amended): when compositing raises, the worker substitutes a
solid-black image of `(max(64, w·8), max(64, h·16))` pixels — the
normal-path size *without* the upper `max_px` clamp, coinciding with it
whenever `w·8` and `h·16` are within `max_px` — and a `Frame` tagged with
the job's cell dimensions is produced for every job outcome. -/
theorem worker_fallback_amended (err : Unit) (w h max_px : Nat)
    (render : Img → Nat → Nat → List (List (String × List Char)))
    (res : Except Unit Img) :
    workerImage (Except.error err) w h =
      blackImg (max 64 (w * 8)) (max 64 (h * 16)) ∧
    (64 ≤ max_px → w * 8 ≤ max_px → max 64 (w * 8) = compositePxW max_px w) ∧
    (64 ≤ max_px → h * 16 ≤ max_px → max 64 (h * 16) = compositePxH max_px h) ∧
    (workerFrame render res w h).width = w ∧
    (workerFrame render res w h).height = h := by
  refine ⟨rfl, ?_, ?_, rfl, rfl⟩
  · intro h1 h2
    unfold compositePxW
    omega
  · intro h1 h2
    unfold compositePxH
    omega

/-- C4 witness: a 2×1-cell job under `max_composite_px = 1200` — the
fallback black image is 64×64, equal to the normal-path clamped size,
and the worker frame keeps the cell dimensions 2×1. -/
theorem worker_fallback_amended_witness :
    workerImage (Except.error ()) 2 1 =
      blackImg (max 64 (2 * 8)) (max 64 (1 * 16)) ∧
    max 64 (2 * 8) = compositePxW 1200 2 ∧
    max 64 (1 * 16) = compositePxH 1200 1 ∧
    (workerFrame nullRender (Except.error ()) 2 1).width = 2 ∧
    (workerFrame nullRender (Except.error ()) 2 1).height = 1 :=
  ⟨(worker_fallback_amended () 2 1 1200 nullRender (Except.error ())).1,
   (worker_fallback_amended () 2 1 1200 nullRender (Except.error ())).2.1
     (by decide) (by decide),
   (worker_fallback_amended () 2 1 1200 nullRender (Except.error ())).2.2.1
     (by decide) (by decide),
   (worker_fallback_amended () 2 1 1200 nullRender (Except.error ())).2.2.2.1,
   (worker_fallback_amended () 2 1 1200 nullRender (Except.error ())).2.2.2.2⟩

/-- C10: for every frame (stale or not) and positive display size,
`_normalize_lines` returns exactly `height` rows, each a single run with
the empty style whose text is exactly `width` characters — per-run color
styles are discarded. -/
theorem normalize_lines_spec (frame : Frame) (width height : Nat)
    (hw : 0 < width) (hh : 0 < height) :
    (normalize_lines frame width height).length = height ∧
    ∀ line ∈ normalize_lines frame width height,
      ∃ t : List Char, line = [("", t)] ∧ t.length = width := by
  constructor
  · simp [normalize_lines]
  · intro line hline
    simp only [normalize_lines, List.mem_map, List.mem_range] at hline
    obtain ⟨y, hy, rfl⟩ := hline
    by_cases hcase : y < frame.lines.length ∧ ¬ (frame.lines.getD y []).isEmpty
    · rw [if_pos hcase]
      set row := ((frame.lines.getD y []).map Prod.snd).flatten with hrow
      by_cases hlen : row.length < width
      · rw [if_pos hlen]
        exact ⟨_, rfl, by simp; omega⟩
      · rw [if_neg hlen]
        exact ⟨_, rfl, by simp; omega⟩
    · rw [if_neg hcase]
      exact ⟨_, rfl, by simp⟩

/-- C10 witness: a stale 5-wide, 1-tall frame normalized to a 4×3 view:
three rows, each a single empty-styled run of exactly 4 characters. -/
theorem normalize_lines_spec_witness :
    (0 : Nat) < 4 ∧ (0 : Nat) < 3 ∧
      ((normalize_lines ⟨5, 1, [[("fg:#ffffff", ['a', 'b', 'c', 'd', 'e'])]]⟩ 4 3).length = 3 ∧
        ∀ line ∈ normalize_lines ⟨5, 1, [[("fg:#ffffff", ['a', 'b', 'c', 'd', 'e'])]]⟩ 4 3,
          ∃ t : List Char, line = [("", t)] ∧ t.length = 4) :=
  ⟨by decide, by decide,
    normalize_lines_spec ⟨5, 1, [[("fg:#ffffff", ['a', 'b', 'c', 'd', 'e'])]]⟩ 4 3
      (by decide) (by decide)⟩

theorem runsLen_mergeCellsO (cells : List (String × Char)) :
    ∀ cur buf, runsLen (mergeCellsO cells cur buf) = buf.length + cells.length := by
  induction cells with
  | nil =>
    intro cur buf
    by_cases hb : buf.isEmpty
    · simp_all [mergeCellsO, runsLen, List.isEmpty_iff]
    · simp_all [mergeCellsO, runsLen]
  | cons c rest ih =>
    intro cur buf
    by_cases hc : some c.1 ≠ cur ∧ ¬ buf.isEmpty
    · simp only [mergeCellsO, if_pos hc, runsLen, List.map_cons, List.sum_cons]
      have := ih (some c.1) [c.2]
      simp only [runsLen] at this
      rw [this]
      simp only [List.length_cons, List.length_nil, List.length]
      omega
    · simp only [mergeCellsO, if_neg hc]
      have := ih (some c.1) (buf ++ [c.2])
      rw [this]
      simp only [List.length_append, List.length_cons, List.length_nil, List.length]
      omega

theorem runsLen_mergeCellsS (cells : List (Option String × Char)) :
    ∀ cur buf, runsLen (mergeCellsS cells cur buf) = buf.length + cells.length := by
  induction cells with
  | nil =>
    intro cur buf
    by_cases hb : buf.isEmpty
    · simp_all [mergeCellsS, runsLen, List.isEmpty_iff]
    · simp_all [mergeCellsS, runsLen]
  | cons c rest ih =>
    intro cur buf
    by_cases hc : c.1.getD cur ≠ cur ∧ ¬ buf.isEmpty
    · simp only [mergeCellsS, if_pos hc, runsLen, List.map_cons, List.sum_cons]
      have := ih (c.1.getD cur) [c.2]
      simp only [runsLen] at this
      rw [this]
      simp only [List.length_cons, List.length_nil, List.length]
      omega
    · simp only [mergeCellsS, if_neg hc]
      have := ih (c.1.getD cur) (buf ++ [c.2])
      rw [this]
      simp only [List.length_append, List.length_cons, List.length_nil, List.length]
      omega

theorem flatten_length_runsLen (l : List (String × List Char)) :
    ((l.map Prod.snd).flatten).length = runsLen l := by
  induction l with
  | nil => rfl
  | cons c rest ih => simp [runsLen, ih, runsLen]

theorem resizeForGrid_dims (rz : ResizeFun) (hrz : ResizeDims rz)
    (img : Img) (w h : Nat) :
    (resizeForGrid rz img w h).width = w ∧ (resizeForGrid rz img w h).height = h := by
  unfold resizeForGrid
  split
  · next hcase => exact hcase
  · exact hrz img w h

theorem ascii_rows_aux (rz : ResizeFun) (hrz : ResizeDims rz) (img : Img)
    (w h : Nat) (use_color : Bool) (palette : List Char)
    (hw : 0 < w) (hh : 0 < h) :
    (asciiBackendRender rz img w h use_color palette).length = h ∧
    ∀ line ∈ asciiBackendRender rz img w h use_color palette,
      ((line.map Prod.snd).flatten).length = w := by
  have hdims := resizeForGrid_dims rz hrz img w h
  have hno : ¬ (w < 1 ∨ h < 1) := by omega
  simp only [asciiBackendRender, if_neg hno]
  cases use_color with
  | false =>
    rw [if_neg Bool.false_ne_true]
    refine ⟨by simp [hdims.2], ?_⟩
    intro line hline
    simp only [List.mem_map, List.mem_range] at hline
    obtain ⟨y, hy, rfl⟩ := hline
    simp [hdims.1]
  | true =>
    rw [if_pos rfl]
    refine ⟨by simp [hdims.2], ?_⟩
    intro line hline
    simp only [List.mem_map, List.mem_range] at hline
    obtain ⟨y, hy, rfl⟩ := hline
    have hlen : runsLen (mergeCellsO ((List.range (resizeForGrid rz img w h).width).map
        fun x => (rgbToStyle ((resizeForGrid rz img w h).pix y x),
          asciiGlyphAt (asciiGlyphs palette) ((resizeForGrid rz img w h).pix y x))) none []) = w := by
      rw [runsLen_mergeCellsO]
      simp [hdims.1]
    have hne : (mergeCellsO ((List.range (resizeForGrid rz img w h).width).map
        fun x => (rgbToStyle ((resizeForGrid rz img w h).pix y x),
          asciiGlyphAt (asciiGlyphs palette) ((resizeForGrid rz img w h).pix y x))) none []).isEmpty = false := by
      rw [List.isEmpty_eq_false_iff_exists_mem]
      by_contra hcon
      push_neg at hcon
      have : (mergeCellsO ((List.range (resizeForGrid rz img w h).width).map
          fun x => (rgbToStyle ((resizeForGrid rz img w h).pix y x),
            asciiGlyphAt (asciiGlyphs palette) ((resizeForGrid rz img w h).pix y x))) none []) = [] :=
        List.eq_nil_iff_forall_not_mem.mpr hcon
      rw [this] at hlen
      simp [runsLen] at hlen
      omega
    simp only [hne, Bool.false_eq_true, if_false]
    rw [flatten_length_runsLen]
    exact hlen

theorem quadrant_rows_aux (rz : ResizeFun) (img : Img)
    (w h : Nat) (use_color : Bool) (hw : 0 < w) (hh : 0 < h) :
    (quadrantRender rz img w h use_color).length = h ∧
    ∀ line ∈ quadrantRender rz img w h use_color,
      ((line.map Prod.snd).flatten).length = w := by
  have hno : ¬ (w ≤ 0 ∨ h ≤ 0) := by omega
  simp only [quadrantRender, if_neg hno]
  refine ⟨by simp, ?_⟩
  intro line hline
  simp only [List.mem_map, List.mem_range] at hline
  obtain ⟨y, hy, rfl⟩ := hline
  rw [flatten_length_runsLen, runsLen_mergeCellsS]
  simp

theorem braille_rows_aux (rz : ResizeFun) (img : Img)
    (w h : Nat) (use_color : Bool) (hw : 0 < w) (hh : 0 < h) :
    (brailleRender rz img w h use_color).length = h ∧
    ∀ line ∈ brailleRender rz img w h use_color,
      ((line.map Prod.snd).flatten).length = w := by
  have hno : ¬ (w ≤ 0 ∨ h ≤ 0) := by omega
  simp only [brailleRender, if_neg hno]
  refine ⟨by simp, ?_⟩
  intro line hline
  simp only [List.mem_map, List.mem_range] at hline
  obtain ⟨y, hy, rfl⟩ := hline
  set cells := (List.range w).map fun cxI =>
    let cx := cxI * 2
    if (rz img (w * 2) (h * 4)).height < y * 4 + 4 ∨ (rz img (w * 2) (h * 4)).width < cx + 2 then
      ((none : Option String), ' ')
    else
      let ch := brailleChar (brailleBits (fun v u => lumQ ((rz img (w * 2) (h * 4)).pix v u)) (y * 4) cx)
      if use_color then (some (rgbToStyle (meanRGB2x4 (rz img (w * 2) (h * 4)) (y * 4) cx)), ch)
      else (some "", ch) with hcells
  have hlen : runsLen (mergeCellsS cells "" []) = w := by
    rw [runsLen_mergeCellsS]
    simp [hcells]
  have hne : (mergeCellsS cells "" []).isEmpty = false := by
    rw [List.isEmpty_eq_false_iff_exists_mem]
    by_contra hcon
    push_neg at hcon
    have hnil : mergeCellsS cells "" [] = [] := List.eq_nil_iff_forall_not_mem.mpr hcon
    rw [hnil] at hlen
    simp [runsLen] at hlen
    omega
  simp only [hne, Bool.false_eq_true, if_false]
  rw [flatten_length_runsLen]
  exact hlen

/-- C7: for every input image and positive cell grid `w × h`, each
renderer backend — ascii (`AsciiBackend`), quadrant, braille — returns
exactly `h` rows, and in each row the concatenation of the run texts is
exactly `w` glyphs (braille cells for the braille backend). -/
theorem renderer_row_column_invariant (rz : ResizeFun) (hrz : ResizeDims rz)
    (img : Img) (w h : Nat) (use_color : Bool) (palette : List Char)
    (hw : 0 < w) (hh : 0 < h) :
    ((asciiBackendRender rz img w h use_color palette).length = h ∧
      ∀ line ∈ asciiBackendRender rz img w h use_color palette,
        ((line.map Prod.snd).flatten).length = w) ∧
    ((quadrantRender rz img w h use_color).length = h ∧
      ∀ line ∈ quadrantRender rz img w h use_color,
        ((line.map Prod.snd).flatten).length = w) ∧
    ((brailleRender rz img w h use_color).length = h ∧
      ∀ line ∈ brailleRender rz img w h use_color,
        ((line.map Prod.snd).flatten).length = w) :=
  ⟨ascii_rows_aux rz hrz img w h use_color palette hw hh,
   quadrant_rows_aux rz img w h use_color hw hh,
   braille_rows_aux rz img w h use_color hw hh⟩

/-- C7 witness: the white 256×256 tile rendered in colour at a 1×1 cell
grid through all three backends. -/
theorem renderer_row_column_invariant_witness :
    ResizeDims sampleResize ∧ (0 : Nat) < 1 ∧
      (((asciiBackendRender sampleResize whiteTile 1 1 true ascii_basic).length = 1 ∧
        ∀ line ∈ asciiBackendRender sampleResize whiteTile 1 1 true ascii_basic,
          ((line.map Prod.snd).flatten).length = 1) ∧
      ((quadrantRender sampleResize whiteTile 1 1 true).length = 1 ∧
        ∀ line ∈ quadrantRender sampleResize whiteTile 1 1 true,
          ((line.map Prod.snd).flatten).length = 1) ∧
      ((brailleRender sampleResize whiteTile 1 1 true).length = 1 ∧
        ∀ line ∈ brailleRender sampleResize whiteTile 1 1 true,
          ((line.map Prod.snd).flatten).length = 1)) :=
  ⟨sampleResize_dims, by decide,
    renderer_row_column_invariant sampleResize sampleResize_dims whiteTile 1 1 true
      ascii_basic (by decide) (by decide)⟩

/-- C9: rendering a pure-white image at 2×1 cells with palette
`" .:-=+*#%@"` and colour off produces exactly one row holding exactly
one run `"@@"` — white luminance maps to the densest (last) ramp glyph —
through both ascii implementations (`AsciiBackend` of renderer.py, the
registered one, and `AsciiRenderer` of ascii_mode.py). -/
theorem ascii_white_two_cells (rz : ResizeFun) (hrz : ResizeDims rz)
    (hconst : ResizeConst rz) (img : Img)
    (hwhite : ∀ u v, img.pix u v = ⟨255, 255, 255⟩) :
    asciiBackendRender rz img 2 1 false ascii_basic = [[("", ['@', '@'])]] ∧
    asciiModeRender rz img 2 1 false ascii_basic = [[("", ['@', '@'])]] := by
  have hdims := resizeForGrid_dims rz hrz img 2 1
  have hpix : ∀ u v, (resizeForGrid rz img 2 1).pix u v = ⟨255, 255, 255⟩ := by
    intro u v
    unfold resizeForGrid
    split
    · exact hwhite u v
    · exact hconst img 2 1 _ hwhite u v
  have hlum : lumQ ⟨255, 255, 255⟩ = 1 := by norm_num [lumQ]
  have hround : npRound ((1 : ℚ) * ((9 : Nat) : ℚ)) = 9 := by
    norm_num [npRound]
  have htrunc : truncToInt ((1 : ℚ) * ((9 : Nat) : ℚ)) = 9 := by
    rw [truncToInt_of_nonneg _ (by norm_num)]
    norm_num
  have hglyph : asciiGlyphAt (asciiGlyphs ascii_basic) ⟨255, 255, 255⟩ = '@' := by
    show ascii_basic.getD
      (clipIdx (npRound (lumQ ⟨255, 255, 255⟩ * ((9 : Nat) : ℚ))) 10) ' ' = '@'
    rw [hlum, hround]
    decide
  have hglyph2 : asciiModeGlyphAt (asciiGlyphs ascii_basic) ⟨255, 255, 255⟩ = '@' := by
    show ascii_basic.getD
      (clipIdx (truncToInt (lumQ ⟨255, 255, 255⟩ * ((9 : Nat) : ℚ))) 10) ' ' = '@'
    rw [hlum, htrunc]
    decide
  constructor
  · simp only [asciiBackendRender, if_neg (by omega : ¬ ((2 : Nat) < 1 ∨ (1 : Nat) < 1)),
      Bool.false_eq_true, if_false, hdims.1, hdims.2, hpix, hglyph]
    rfl
  · simp only [asciiModeRender, if_neg (by omega : ¬ ((2 : Nat) ≤ 0 ∨ (1 : Nat) ≤ 0)),
      Bool.false_eq_true, if_false, hpix, hglyph2]
    rfl

/-- C9 witness: the concrete all-white tile through the concrete
resizer. -/
theorem ascii_white_two_cells_witness :
    ResizeDims sampleResize ∧ ResizeConst sampleResize ∧
      (asciiBackendRender sampleResize whiteTile 2 1 false ascii_basic = [[("", ['@', '@'])]] ∧
        asciiModeRender sampleResize whiteTile 2 1 false ascii_basic = [[("", ['@', '@'])]]) :=
  ⟨sampleResize_dims, sampleResize_const,
    ascii_white_two_cells sampleResize sampleResize_dims sampleResize_const whiteTile
      (fun u v => rfl)⟩

/-- C3: the crop-centering bug, evaluated at fractional center tile
coordinate `xt = 21/2` (e.g. lon 56.25 at zoom 4, where
`(lon+180)/360·2^4 = 10.5`) and a 100-px-wide output.  The assembled
canvas spans `tiles_x = 3` tiles with `start_x = 9`, so the exact
fractional center sits at canvas x `384`; a window centered there starts
at `334`.  The code instead crops from `left = 206` (centered on canvas
x `256`) — the crop window `[206, 306)` does not even contain the
center's canvas position, contradicting both the claim and the
function's own "centered on (lat, lon)" docstring. -/
theorem composite_crop_center_bug :
    composite_crop_left (21 / 2) 100 = 206 ∧
    claimedCenterCanvasX (21 / 2) 100 = 384 ∧
    claimedCropLeft (21 / 2) 100 = 334 ∧
    composite_crop_left (21 / 2) 100 ≠ claimedCropLeft (21 / 2) 100 ∧
    ¬ (((composite_crop_left (21 / 2) 100 : ℚ) ≤ claimedCenterCanvasX (21 / 2) 100) ∧
        claimedCenterCanvasX (21 / 2) 100 < (composite_crop_left (21 / 2) 100 : ℚ) + 100) := by
  have htx : composite_tx (21 / 2) = 10 := by
    rw [composite_tx, truncToInt_of_nonneg _ (by norm_num)]
    norm_num
  have htiles : composite_tiles_x 100 = 3 := by
    norm_num [composite_tiles_x, ceilDiv256]
  have hstart : composite_start_x (21 / 2) 100 = 9 := by
    rw [composite_start_x, htx, htiles]
    norm_num
  have hcx : composite_crop_cx (21 / 2) = 256 := by
    rw [composite_crop_cx, htx]
    norm_num
  have hleft : composite_crop_left (21 / 2) 100 = 206 := by
    rw [composite_crop_left, hcx]
    rw [show (256 : ℚ) - (100 : Nat) / 2 = 206 by norm_num]
    rw [truncToInt_of_nonneg _ (by norm_num)]
    norm_num
  have hcenter : claimedCenterCanvasX (21 / 2) 100 = 384 := by
    rw [claimedCenterCanvasX, hstart]
    norm_num
  have hclaimed : claimedCropLeft (21 / 2) 100 = 334 := by
    rw [claimedCropLeft, hcenter]
    rw [show (384 : ℚ) - (100 : Nat) / 2 = 334 by norm_num]
    rw [truncToInt_of_nonneg _ (by norm_num)]
    norm_num
  refine ⟨hleft, hcenter, hclaimed, ?_, ?_⟩
  · rw [hleft, hclaimed]
    decide
  · rw [hleft, hcenter]
    norm_num

/-- C8: for every latitude inside the Web-Mercator band
(`|lat| ≤ 85.0511`), every longitude and every zoom, converting with
`latlon_to_tile_xy` and back with `tile_xy_to_latlon` returns exactly the
original `(lat, lon)` — in particular the two functions round-trip within
every positive epsilon. -/
theorem geodesy_round_trip (lat lon : ℝ) (zoom : ℕ)
    (hlat : |lat| ≤ 85.0511) :
    tile_xy_to_latlon (latlon_to_tile_xy lat lon zoom).1
      (latlon_to_tile_xy lat lon zoom).2 zoom = (lat, lon) := by
  have hπ : (0 : ℝ) < Real.pi := Real.pi_pos
  have hn : (0 : ℝ) < 2 ^ zoom := by positivity
  have habs := abs_le.mp hlat
  have hclamp : clamp_lat lat = lat := by
    rw [clamp_lat, MAX_LAT]
    rw [min_eq_left (by linarith [habs.2] : lat ≤ 85.05112878)]
    rw [max_eq_left (by linarith [habs.1] : -(85.05112878 : ℝ) ≤ lat)]
  set φ : ℝ := lat * Real.pi / 180 with hφ
  have hφub : φ < Real.pi / 2 := by
    rw [hφ]
    nlinarith [habs.2, hπ]
  have hφlb : -(Real.pi / 2) < φ := by
    rw [hφ]
    nlinarith [habs.1, hπ]
  have hcos : 0 < Real.cos φ := Real.cos_pos_of_mem_Ioo ⟨hφlb, hφub⟩
  have hsin : -1 < Real.sin φ := by
    nlinarith [Real.sin_sq_add_cos_sq φ, hcos]
  have ht : 0 < Real.tan φ + 1 / Real.cos φ := by
    rw [Real.tan_eq_sin_div_cos, div_add_div_same]
    exact div_pos (by linarith) hcos
  have hinv : (Real.tan φ + 1 / Real.cos φ)⁻¹ = 1 / Real.cos φ - Real.tan φ := by
    refine inv_eq_of_mul_eq_one_right ?_
    rw [Real.tan_eq_sin_div_cos]
    field_simp
    nlinarith [Real.sin_sq_add_cos_sq φ]
  have hsinh : Real.sinh (Real.log (Real.tan φ + 1 / Real.cos φ)) = Real.tan φ := by
    rw [Real.sinh_log ht, hinv]
    ring
  show (_, _) = (_, _)
  rw [Prod.mk.injEq]
  constructor
  · show Real.arctan (Real.sinh (Real.pi * (1 - 2 *
      ((1 - Real.log (Real.tan (clamp_lat lat * Real.pi / 180) +
        1 / Real.cos (clamp_lat lat * Real.pi / 180)) / Real.pi) / 2 * 2 ^ zoom) /
          2 ^ zoom))) * 180 / Real.pi = lat
    rw [hclamp]
    have harg : Real.pi * (1 - 2 *
        ((1 - Real.log (Real.tan φ + 1 / Real.cos φ) / Real.pi) / 2 * 2 ^ zoom) /
          2 ^ zoom) = Real.log (Real.tan φ + 1 / Real.cos φ) := by
      field_simp
      ring
    rw [harg, hsinh, Real.arctan_tan hφlb hφub]
    rw [hφ]
    field_simp
  · show ((lon + 180) / 360 * 2 ^ zoom) / 2 ^ zoom * 360 - 180 = lon
    field_simp
    ring

/-- C8 witness: the equator/Greenwich point at zoom 5 round-trips
exactly. -/
theorem geodesy_round_trip_witness :
    |(0 : ℝ)| ≤ 85.0511 ∧
      tile_xy_to_latlon (latlon_to_tile_xy 0 0 5).1 (latlon_to_tile_xy 0 0 5).2 5 =
        ((0 : ℝ), (0 : ℝ)) :=
  ⟨by norm_num, geodesy_round_trip 0 0 5 (by norm_num)⟩

end CartoTUI
